import Mathlib

/-!
Verification of the license scanning and compliance resolution engine of
the go-licenses repository. Definitions are shallow embeddings of the Go
source files; external capabilities (license classifier, source locator,
filesystem, copy library) are passed in as explicit function arguments.
-/

namespace GoLicenses

/-- Modelled from the spec: the `licenses.Type` enum of license families is
referenced by `saveMain` (src/unnamed/part_001) and `checkMain` but its
declaration is not among the provided sources. The spec defines it as the
ordered enum `Unencumbered < Permissive < Notice < Reciprocal < Restricted`
plus the two outcomes `Unknown` and `Forbidden` that are stricter than
`Restricted`. -/
inductive LicenseType where
  | unencumbered
  | permissive
  | notice
  | reciprocal
  | restricted
  | unknown
  | forbidden
deriving DecidableEq, Repr

/-- Modelled from the spec: strictness rank of a license family, inducing the
total order used by the strictness resolver. `unknown` and `forbidden` are
placed above `restricted`. -/
def rank : LicenseType → Nat
  | .unencumbered => 0
  | .permissive => 1
  | .notice => 2
  | .reciprocal => 3
  | .restricted => 4
  | .unknown => 5
  | .forbidden => 6

/-- Modelled from the spec: `licenses.Stricter(a, b)` is true when family `a`
is strictly stricter than family `b` in the total order. Its declaration is
not among the provided sources; `saveMain` calls it in its accumulator loop. -/
def Stricter (a b : LicenseType) : Bool :=
  rank b < rank a

/-- The strictness-resolution loop of `saveMain` (src/unnamed/part_001,
lines 100-108): initialize the accumulator to `Unencumbered`, replace it by a
finding family exactly when that family is strictly stricter. -/
def resolve (findings : List LicenseType) : LicenseType :=
  findings.foldl (fun acc t => if Stricter t acc then t else acc) .unencumbered

lemma rank_eq_zero : ∀ a : LicenseType, rank a = 0 → a = .unencumbered := by
  intro a
  cases a <;> decide

lemma resolve_foldl_mem (l : List LicenseType) :
    ∀ acc, l.foldl (fun acc t => if Stricter t acc then t else acc) acc ∈ acc :: l := by
  induction l with
  | nil => intro acc; simp
  | cons h t ih =>
    intro acc
    simp only [List.foldl_cons]
    have h2 := ih (if Stricter h acc then h else acc)
    rcases List.mem_cons.mp h2 with h1 | h1
    · rw [h1]
      by_cases hs : Stricter h acc <;> simp [hs]
    · exact List.mem_cons_of_mem _ (List.mem_cons_of_mem _ h1)

lemma resolve_foldl_acc_le (l : List LicenseType) :
    ∀ acc, rank acc ≤ rank (l.foldl (fun acc t => if Stricter t acc then t else acc) acc) := by
  induction l with
  | nil => intro acc; simp
  | cons h t ih =>
    intro acc
    simp only [List.foldl_cons]
    refine le_trans ?_ (ih (if Stricter h acc then h else acc))
    by_cases hs : Stricter h acc
    · simp [hs]
      exact le_of_lt (by simpa [Stricter, decide_eq_true_eq] using hs)
    · simp [hs]

lemma resolve_foldl_ub (l : List LicenseType) :
    ∀ acc, ∀ x ∈ l, rank x ≤ rank (l.foldl (fun acc t => if Stricter t acc then t else acc) acc) := by
  induction l with
  | nil => intro acc x hx; simp at hx
  | cons h t ih =>
    intro acc x hx
    simp only [List.foldl_cons]
    rcases List.mem_cons.mp hx with rfl | hx
    · refine le_trans ?_ (resolve_foldl_acc_le t (if Stricter x acc then x else acc))
      by_cases hs : Stricter x acc
      · simp [hs]
      · simp [hs]
        simp only [Stricter, decide_eq_true_eq] at hs
        omega
    · exact ih (if Stricter h acc then h else acc) x hx

/-- C1: for every non-empty list of finding families, the family computed by
the strictness-resolution loop of `saveMain` is the maximum element of the
list under the strictness total order (it is a member of the list and its
rank dominates the rank of every member). -/
theorem resolve_eq_max (l : List LicenseType) (hne : l ≠ []) :
    resolve l ∈ l ∧ ∀ x ∈ l, rank x ≤ rank (resolve l) := by
  constructor
  · have hmem := resolve_foldl_mem l .unencumbered
    rcases List.mem_cons.mp hmem with heq | hin
    · -- the fold returned the initial accumulator: every member has rank 0
      have hub := resolve_foldl_ub l .unencumbered
      cases l with
      | nil => exact absurd rfl hne
      | cons a t =>
        have ha : rank a ≤ rank (resolve (a :: t)) := hub a (by simp)
        rw [show resolve (a :: t) = LicenseType.unencumbered from heq] at ha
        have : a = .unencumbered := rank_eq_zero a (Nat.le_zero.mp ha)
        rw [show resolve (a :: t) = LicenseType.unencumbered from heq, ← this]
        simp
    · exact hin
  · exact resolve_foldl_ub l .unencumbered

/-- Witness for C1 at the concrete input of the spec:
resolving a permissive finding together with a restricted finding yields
the restricted family. -/
theorem resolve_eq_max_witness :
    resolve [LicenseType.permissive, LicenseType.restricted] = LicenseType.restricted ∧
      LicenseType.restricted ∈ [LicenseType.permissive, LicenseType.restricted] := by
  have h := resolve_eq_max [LicenseType.permissive, LicenseType.restricted] (by decide)
  exact ⟨by decide, h.1⟩

/-- A scanned module as seen by the dispatch loop of `saveMain`
(src/unnamed/part_001): its module path and the families of its license
findings (`mod.Licenses`). -/
structure ScannedMod where
  path : String
  types : List LicenseType
deriving DecidableEq, Repr

/-- The governing family of a scanned module: the result of the
strictness-resolution loop of `saveMain` over its findings. -/
def governing (m : ScannedMod) : LicenseType :=
  resolve m.types

/-- The three compliance actions of the dispatch switch in `saveMain`
(src/unnamed/part_001, lines 112-127). -/
inductive ComplianceAction where
  | redistributeSource
  | redistributeNotice
  | reject
deriving DecidableEq, Repr

/-- The dispatch switch of `saveMain` (src/unnamed/part_001, lines 112-127):
Restricted and Reciprocal copy the entire source directory, Notice,
Permissive and Unencumbered copy only licenses and notices, and the default
branch records the module in the bad-license map. -/
def dispatchAction (t : LicenseType) : ComplianceAction :=
  match t with
  | .restricted | .reciprocal => .redistributeSource
  | .notice | .permissive | .unencumbered => .redistributeNotice
  | _ => .reject

/-- The per-module dispatch loop of `saveMain` (src/unnamed/part_001,
lines 92-128), restricted to its decision logic: it accumulates the list of
performed copy actions (keyed by `filepath.Join(savePath, mod.Path)`) and the
bad-license list of (family, module path) pairs. Copy I/O failures are
modelled separately in the v2 dispatcher `complyGo`. -/
def saveLoop (savePath : String) :
    List ScannedMod → List (String × ComplianceAction) → List (LicenseType × String) →
      List (String × ComplianceAction) × List (LicenseType × String)
  | [], copies, bad => (copies, bad)
  | m :: rest, copies, bad =>
    match dispatchAction (governing m) with
    | .redistributeSource =>
      saveLoop savePath rest (copies ++ [(savePath ++ "/" ++ m.path, .redistributeSource)]) bad
    | .redistributeNotice =>
      saveLoop savePath rest (copies ++ [(savePath ++ "/" ++ m.path, .redistributeNotice)]) bad
    | .reject =>
      saveLoop savePath rest copies (bad ++ [(governing m, m.path)])

/-- C2: the dispatch action of a manifest row / scanned component is a
function of the governing family alone: Unencumbered, Permissive and Notice
yield a notice-only copy, Reciprocal and Restricted yield a full source copy
keyed by the component path, and the remaining families (Unknown, Forbidden)
yield Reject, performing no copy and recording the component path together
with its governing family in the bad-license list. -/
theorem dispatch_by_family (t : LicenseType) (sp : String) (m : ScannedMod)
    (copies : List (String × ComplianceAction)) (bad : List (LicenseType × String)) :
    (dispatchAction t = .redistributeNotice ↔
        (t = .unencumbered ∨ t = .permissive ∨ t = .notice)) ∧
    (dispatchAction t = .redistributeSource ↔ (t = .reciprocal ∨ t = .restricted)) ∧
    (dispatchAction t = .reject ↔ (t = .unknown ∨ t = .forbidden)) ∧
    (dispatchAction (governing m) = .reject →
        saveLoop sp [m] copies bad = (copies, bad ++ [(governing m, m.path)])) ∧
    (dispatchAction (governing m) ≠ .reject →
        saveLoop sp [m] copies bad =
          (copies ++ [(sp ++ "/" ++ m.path, dispatchAction (governing m))], bad)) := by
  refine ⟨by cases t <;> decide, by cases t <;> decide, by cases t <;> decide, ?_, ?_⟩
  · intro hr
    simp only [saveLoop, hr]
  · intro hr
    rcases ha : dispatchAction (governing m) with _ | _ | _
    · simp only [saveLoop, ha]
    · simp only [saveLoop, ha]
    · exact absurd ha hr

/-- Witness for C2: a module whose findings resolve to the Unknown family is
rejected and recorded with its path and family; no copy is performed. -/
theorem dispatch_by_family_witness :
    saveLoop "out" [ScannedMod.mk "m" [LicenseType.unknown]] [] [] =
      ([], [(LicenseType.unknown, "m")]) := by
  have h := dispatch_by_family LicenseType.unknown "out"
    (ScannedMod.mk "m" [LicenseType.unknown]) [] []
  exact h.2.2.2.1 (by decide)

/-- The destination precheck of the save command (src/unnamed/part_001,
lines 76-89, and src/v2/cmd/save.go, lines 61-74): when the force flag is
set, the destination tree is removed with RemoveAll first; then the
destination is opened, and an already-existing destination is a fatal error.
The booleans model whether RemoveAll succeeds, whether the destination
exists before the command runs, and whether the existence probe itself fails
with an error other than not-exists. -/
def savePrecheck (force removeOk destExists openFails : Bool) (savePath : String) :
    Except String Unit :=
  if force && !removeOk then .error "remove failed"
  else
    let existsNow := if force then false else destExists
    if existsNow then .error (savePath ++ " already exists")
    else if openFails then .error "open failed"
    else .ok ()

/-- C4: with a healthy filesystem probe, the save command fails with the
destination-exists error exactly when the destination already exists and the
force flag is unset; with force set, the destination is removed before the
existence check, so the command always proceeds on a fresh destination. -/
theorem save_precheck_dest_exists (force ex : Bool) (sp : String) :
    (savePrecheck force true ex false sp = .error (sp ++ " already exists") ↔
        (ex && !force) = true) ∧
    savePrecheck true true ex false sp = .ok () := by
  cases force <;> cases ex <;> simp [savePrecheck]

/-- The compliance requirement type of the v2 save command
(src/v2/cmd/save.go, lines 104-116). The Go constants are the strings
Unknown, DistributeSource and DistributeNotice. -/
inductive ComplianceReq where
  | unknown
  | redistributeSource
  | redistributeNotice
deriving DecidableEq, Repr

instance {ε α : Type} [DecidableEq ε] [DecidableEq α] : DecidableEq (Except ε α) :=
  fun x y =>
    match x, y with
    | .ok a, .ok b =>
      if h : a = b then isTrue (h ▸ rfl) else isFalse (fun hc => h (Except.ok.inj hc))
    | .error a, .error b =>
      if h : a = b then isTrue (h ▸ rfl) else isFalse (fun hc => h (Except.error.inj hc))
    | .ok _, .error _ => isFalse (fun hc => Except.noConfusion hc)
    | .error _, .ok _ => isFalse (fun hc => Except.noConfusion hc)

/-- A license type override from the user config (src/v2/cmd/save.go,
lines 131-135): entries with a matching SPDX ID replace the classifier
license type. -/
structure TypeOverride where
  spdxId : String
  ltype : String
deriving DecidableEq, Repr

/-- Split a list of characters at every occurrence of the separator
character, keeping empty segments, with the semantics of Go strings.Split
for a one-character separator. -/
def splitOnChar (c : Char) : List Char → List (List Char)
  | [] => [[]]
  | x :: xs =>
    let r := splitOnChar c xs
    if x = c then [] :: r
    else
      match r with
      | [] => [[x]]
      | h :: t => (x :: h) :: t

/-- Go strings.Split of a license expression on the slash separator
(src/v2/cmd/save.go, line 124). -/
def splitSlash (s : String) : List String :=
  (splitOnChar '/' s.toList).map String.mk

/-- Go strings.TrimSpace (src/v2/cmd/save.go, line 125): remove leading and
trailing whitespace characters. -/
def strTrim (s : String) : String :=
  String.mk
    (((s.toList.dropWhile Char.isWhitespace).reverse.dropWhile Char.isWhitespace).reverse)

/-- The effective license type of one SPDX ID (src/v2/cmd/save.go,
lines 130-135): the licenseclassifier verdict `ltOf spdxId`, replaced by
each matching override in order (the last matching override wins). -/
def effectiveLicenseType (ltOf : String → String) (ov : List TypeOverride)
    (spdxId : String) : String :=
  ov.foldl (fun acc o => if o.spdxId = spdxId then o.ltype else acc) (ltOf spdxId)

/-- The license types of the restricted/reciprocal switch arm of
`requirementType` (src/v2/cmd/save.go, line 137). -/
def isSourceType (lt : String) : Bool :=
  lt = "restricted" || lt = "reciprocal"

/-- The license types of the notice/permissive/unencumbered switch arm of
`requirementType` (src/v2/cmd/save.go, line 139). -/
def isNoticeType (lt : String) : Bool :=
  lt = "notice" || lt = "permissive" || lt = "unencumbered"

/-- A license type handled by a non-default arm of the switch in
`requirementType` (src/v2/cmd/save.go, lines 136-145). -/
def recognizedType (lt : String) : Bool :=
  isSourceType lt || isNoticeType lt

/-- The loop body of `requirementType` (src/v2/cmd/save.go, lines 124-146):
fold over the slash-separated parts of the license expression, trimming each
part, failing on an empty SPDX ID, upgrading the requirement to source
redistribution on a restricted or reciprocal part, keeping it unchanged on a
notice-family part, and returning Unknown on any other license type. -/
def reqGo (ltOf : String → String) (ov : List TypeOverride) (license : String) :
    List String → ComplianceReq → Except String ComplianceReq
  | [], requirement => .ok requirement
  | part :: rest, requirement =>
    if strTrim part = "" then
      .error ("Empty SPDX ID in \"" ++ license ++ "\"")
    else
      let lt := effectiveLicenseType ltOf ov (strTrim part)
      if isSourceType lt then reqGo ltOf ov license rest .redistributeSource
      else if isNoticeType lt then reqGo ltOf ov license rest requirement
      else .ok .unknown

/-- `requirementType` (src/v2/cmd/save.go, lines 121-148): determine the
compliance requirement of a governing license expression, which may list
several SPDX IDs joined by a slash; the default requirement is notice
redistribution. `ltOf` stands for the external
`licenseclassifier.LicenseType` lookup. -/
def requirementType (ltOf : String → String) (ov : List TypeOverride)
    (license : String) : Except String ComplianceReq :=
  reqGo ltOf ov license (splitSlash license) .redistributeNotice

lemma reqGo_characterization (ltOf : String → String) (ov : List TypeOverride)
    (license : String) (parts : List String) :
    ∀ req, (∀ p ∈ parts, strTrim p ≠ "") →
      reqGo ltOf ov license parts req =
        .ok (if parts.any (fun p => !recognizedType (effectiveLicenseType ltOf ov (strTrim p))) then
               .unknown
             else if parts.any (fun p => isSourceType (effectiveLicenseType ltOf ov (strTrim p))) then
               .redistributeSource
             else req) := by
  induction parts with
  | nil => intro req _; simp [reqGo]
  | cons p rest ih =>
    intro req hne
    have hp : strTrim p ≠ "" := hne p (by simp)
    have hrest : ∀ q ∈ rest, strTrim q ≠ "" := fun q hq => hne q (by simp [hq])
    simp only [reqGo]
    rw [if_neg hp]
    by_cases hs : isSourceType (effectiveLicenseType ltOf ov (strTrim p))
    · have hr : recognizedType (effectiveLicenseType ltOf ov (strTrim p)) = true := by
        simp [recognizedType, hs]
      rw [if_pos hs, ih .redistributeSource hrest]
      simp only [List.any_cons, hr, hs, Bool.not_true, Bool.false_or, Bool.true_or, if_true,
        ite_self]
    · rw [if_neg hs]
      by_cases hn : isNoticeType (effectiveLicenseType ltOf ov (strTrim p))
      · have hr : recognizedType (effectiveLicenseType ltOf ov (strTrim p)) = true := by
          simp [recognizedType, hn]
        rw [if_pos hn, ih req hrest]
        simp only [List.any_cons, hr, hs, Bool.not_true, Bool.false_or]
      · have hr : recognizedType (effectiveLicenseType ltOf ov (strTrim p)) = false := by
          simp only [recognizedType, Bool.or_eq_false_iff]
          exact ⟨by simpa using hs, by simpa using hn⟩
        rw [if_neg hn]
        simp [List.any_cons, hr]

/-- C8: for a governing expression whose slash-separated parts all trim to a
non-empty SPDX ID, each part is independently mapped to a license type (with
config overrides applied) and the strictest requirement governs: any
unrecognized type makes the whole expression Unknown (reject); otherwise any
restricted or reciprocal part requires full source redistribution; otherwise
the requirement is notice redistribution. -/
theorem requirement_type_strictest (ltOf : String → String) (ov : List TypeOverride)
    (license : String)
    (hne : ∀ p ∈ splitSlash license, strTrim p ≠ "") :
    requirementType ltOf ov license =
      .ok (if (splitSlash license).any
              (fun p => !recognizedType (effectiveLicenseType ltOf ov (strTrim p))) then
             .unknown
           else if (splitSlash license).any
              (fun p => isSourceType (effectiveLicenseType ltOf ov (strTrim p))) then
             .redistributeSource
           else .redistributeNotice) :=
  reqGo_characterization ltOf ov license (splitSlash license) .redistributeNotice hne

/-- Witness for C8: the dual-licensed expression GPL-3.0 / MIT resolves to
source redistribution when GPL-3.0 classifies as restricted and MIT as
notice. -/
theorem requirement_type_strictest_witness :
    requirementType
        (fun s => if s = "GPL-3.0" then "restricted" else if s = "MIT" then "notice" else "")
        [] "GPL-3.0 / MIT" =
      .ok .redistributeSource := by
  have h := requirement_type_strictest
    (fun s => if s = "GPL-3.0" then "restricted" else if s = "MIT" then "notice" else "")
    [] "GPL-3.0 / MIT" (by decide)
  exact h.trans (by decide)

/-- One row of the license manifest csv consumed by the v2 save command
(the `dict.LicenseRecord` of src/v2/cmd/save.go): module path, governing
license expression and license download URL. -/
structure LicenseRecord where
  module : String
  ltype : String
  downloadUrl : String
deriving DecidableEq, Repr

/-- The `go list -m` record of a module as used by `complyWithLicenses`
(src/v2/cmd/save.go, lines 184-194): only its source directory matters. -/
structure ModuleMeta where
  dir : String
deriving DecidableEq, Repr

/-- The errors `complyWithLicenses` (src/v2/cmd/save.go, lines 150-236) can
return, each carrying the data the Go error message interpolates. -/
inductive SaveError where
  | reqTypeErr (module license msg : String)
  | moduleNotFound (module : String)
  | emptyModuleDir (module : String)
  | copyFailed (module src dest : String)
  | downloadFailed (module url : String)
  | rejected (count : Nat) (bad : List LicenseRecord)
deriving DecidableEq, Repr

/-- The row loop of `complyWithLicenses` (src/v2/cmd/save.go,
lines 175-230). `ltOf` is the external licenseclassifier lookup, `dict` the
module dictionary from `go list -m all`, `copyOk` tells whether a source
copy succeeds, and `download` fetches a license text by URL (`none` on
failure). The `bad` accumulator collects rejected rows; once it is
non-empty, the download and licenses.txt writes of later rows are skipped
(the `continue`), but their requirement dispatch and source copies still
run. Any copy, lookup or download failure returns immediately; only at the
end of a full pass is the aggregated rejected error returned. -/
def complyGo (ltOf : String → String) (ov : List TypeOverride)
    (dict : String → Option ModuleMeta) (copyOk : String → String → Bool)
    (download : String → Option String) (savePath : String) :
    List LicenseRecord → List LicenseRecord → List String →
      Except SaveError (List String)
  | [], bad, writes =>
    if bad.isEmpty then .ok writes else .error (.rejected bad.length bad)
  | r :: rest, bad, writes =>
    match requirementType ltOf ov r.ltype with
    | .error msg => .error (.reqTypeErr r.module r.ltype msg)
    | .ok req =>
      let step : Except SaveError (List LicenseRecord) :=
        match req with
        | .redistributeSource =>
          match dict r.module with
          | none => .error (.moduleNotFound r.module)
          | some meta =>
            if meta.dir = "" then .error (.emptyModuleDir r.module)
            else if copyOk meta.dir (savePath ++ "/src/" ++ r.module) then .ok bad
            else .error (.copyFailed r.module meta.dir (savePath ++ "/src/" ++ r.module))
        | .redistributeNotice => .ok bad
        | .unknown => .ok (bad ++ [r])
      match step with
      | .error e => .error e
      | .ok bad2 =>
        if bad2.isEmpty then
          match download r.downloadUrl with
          | none => .error (.downloadFailed r.module r.downloadUrl)
          | some content =>
            complyGo ltOf ov dict copyOk download savePath rest bad2
              (writes ++ ["============= " ++ r.module ++ " =============\n",
                          r.downloadUrl ++ "\n\n", content, "\n\n"])
        else complyGo ltOf ov dict copyOk download savePath rest bad2 writes

/-- `complyWithLicenses` (src/v2/cmd/save.go, lines 150-236), restricted to
its row-processing logic (the initial filesystem setup of the destination is
elided). -/
def comply (ltOf : String → String) (ov : List TypeOverride)
    (dict : String → Option ModuleMeta) (copyOk : String → String → Bool)
    (download : String → Option String) (savePath : String)
    (info : List LicenseRecord) : Except SaveError (List String) :=
  complyGo ltOf ov dict copyOk download savePath info [] []

/-- C3 counterexample: with row A carrying an unrecognized license (hence
Reject) and row B carrying a restricted license whose source copy fails, the
dispatcher aborts at row B and returns an error naming only B; the rejected
row A is absent from the returned error, refuting the claim that one
combined error names every rejected component and every failed copy. -/
theorem comply_abort_counterexample :
    comply (fun s => if s = "GPL-3.0" then "restricted" else "")
        [] (fun _ => some (ModuleMeta.mk "db")) (fun _ _ => false) (fun _ => some "text")
        "out"
        [LicenseRecord.mk "A" "BadLic" "uA", LicenseRecord.mk "B" "GPL-3.0" "uB"] =
      .error (.copyFailed "B" "db" "out/src/B") := by
  decide

lemma complyGo_aggregates (ltOf : String → String) (ov : List TypeOverride)
    (dict : String → Option ModuleMeta) (copyOk : String → String → Bool)
    (download : String → Option String) (savePath : String)
    (hcopy : ∀ s d, copyOk s d = true)
    (hdl : ∀ u, ∃ c, download u = some c)
    (hdict : ∀ name, ∃ meta, dict name = some meta ∧ meta.dir ≠ "") :
    ∀ (info bad : List LicenseRecord) (writes : List String),
      (∀ r ∈ info, ∃ q, requirementType ltOf ov r.ltype = .ok q) →
      (bad ++ info.filter (fun r => requirementType ltOf ov r.ltype == .ok .unknown) = [] →
          ∃ ws, complyGo ltOf ov dict copyOk download savePath info bad writes = .ok ws) ∧
      (bad ++ info.filter (fun r => requirementType ltOf ov r.ltype == .ok .unknown) ≠ [] →
          complyGo ltOf ov dict copyOk download savePath info bad writes =
            .error (.rejected
              (bad ++ info.filter
                (fun r => requirementType ltOf ov r.ltype == .ok .unknown)).length
              (bad ++ info.filter
                (fun r => requirementType ltOf ov r.ltype == .ok .unknown)))) := by
  intro info
  induction info with
  | nil =>
    intro bad writes _
    constructor
    · intro h
      simp only [List.filter_nil, List.append_nil] at h
      refine ⟨writes, ?_⟩
      simp [complyGo, h]
    · intro h
      simp only [List.filter_nil, List.append_nil] at h ⊢
      have : ¬bad.isEmpty := by
        cases bad with
        | nil => exact absurd rfl h
        | cons a l => simp
      simp [complyGo, this]
  | cons r rest ih =>
    intro bad writes hreq
    obtain ⟨q, hq⟩ := hreq r (by simp)
    have hrest : ∀ x ∈ rest, ∃ q, requirementType ltOf ov x.ltype = .ok q :=
      fun x hx => hreq x (by simp [hx])
    cases q with
    | unknown =>
      have hfil : (r :: rest).filter
          (fun x => requirementType ltOf ov x.ltype == .ok .unknown) =
          r :: rest.filter (fun x => requirementType ltOf ov x.ltype == .ok .unknown) := by
        simp [List.filter_cons, hq]
      have hstep :
          complyGo ltOf ov dict copyOk download savePath (r :: rest) bad writes =
            complyGo ltOf ov dict copyOk download savePath rest (bad ++ [r]) writes := by
        simp only [complyGo, hq]
        have : (bad ++ [r]).isEmpty = false := by
          cases bad <;> simp
        simp [this]
      rw [hstep, hfil]
      have := ih (bad ++ [r]) writes hrest
      constructor
      · intro h
        exact absurd h (by simp)
      · intro _
        have h2 := this.2 (by simp)
        simpa using h2
    | redistributeSource =>
      have hfil : (r :: rest).filter
          (fun x => requirementType ltOf ov x.ltype == .ok .unknown) =
          rest.filter (fun x => requirementType ltOf ov x.ltype == .ok .unknown) := by
        simp [List.filter_cons, hq]
      obtain ⟨meta, hmeta, hdir⟩ := hdict r.module
      have hcp := hcopy meta.dir (savePath ++ "/src/" ++ r.module)
      have hstep :
          ∃ ws2, complyGo ltOf ov dict copyOk download savePath (r :: rest) bad writes =
            complyGo ltOf ov dict copyOk download savePath rest bad ws2 := by
        simp only [complyGo, hq, hmeta, hdir, hcp]
        by_cases hb : bad.isEmpty
        · obtain ⟨c, hc⟩ := hdl r.downloadUrl
          refine ⟨writes ++ ["============= " ++ r.module ++ " =============\n",
            r.downloadUrl ++ "\n\n", c, "\n\n"], ?_⟩
          simp [hb, hc, hdir]
        · refine ⟨writes, ?_⟩
          simp [hb, hdir]
      obtain ⟨ws2, hws2⟩ := hstep
      rw [hws2, hfil]
      exact ih bad ws2 hrest
    | redistributeNotice =>
      have hfil : (r :: rest).filter
          (fun x => requirementType ltOf ov x.ltype == .ok .unknown) =
          rest.filter (fun x => requirementType ltOf ov x.ltype == .ok .unknown) := by
        simp [List.filter_cons, hq]
      have hstep :
          ∃ ws2, complyGo ltOf ov dict copyOk download savePath (r :: rest) bad writes =
            complyGo ltOf ov dict copyOk download savePath rest bad ws2 := by
        simp only [complyGo, hq]
        by_cases hb : bad.isEmpty
        · obtain ⟨c, hc⟩ := hdl r.downloadUrl
          refine ⟨writes ++ ["============= " ++ r.module ++ " =============\n",
            r.downloadUrl ++ "\n\n", c, "\n\n"], ?_⟩
          simp [hb, hc]
        · refine ⟨writes, ?_⟩
          simp [hb]
      obtain ⟨ws2, hws2⟩ := hstep
      rw [hws2, hfil]
      exact ih bad ws2 hrest

/-- C3 amended: the dispatcher aggregates only Reject rows across the full
pass: when every source copy, module lookup and license download succeeds
and every row has a well-formed license expression, the run returns the
single error naming exactly the rejected rows (in row order, with their
declared licenses) when there is at least one, and succeeds otherwise. A
copy-time or download failure instead aborts immediately with an error
attributed to that row alone (see the counterexample). -/
theorem comply_aggregates_rejects (ltOf : String → String) (ov : List TypeOverride)
    (dict : String → Option ModuleMeta) (copyOk : String → String → Bool)
    (download : String → Option String) (savePath : String)
    (info : List LicenseRecord)
    (hcopy : ∀ s d, copyOk s d = true)
    (hdl : ∀ u, ∃ c, download u = some c)
    (hdict : ∀ name, ∃ meta, dict name = some meta ∧ meta.dir ≠ "")
    (hreq : ∀ r ∈ info, ∃ q, requirementType ltOf ov r.ltype = .ok q) :
    (info.filter (fun r => requirementType ltOf ov r.ltype == .ok .unknown) = [] →
        ∃ ws, comply ltOf ov dict copyOk download savePath info = .ok ws) ∧
    (info.filter (fun r => requirementType ltOf ov r.ltype == .ok .unknown) ≠ [] →
        comply ltOf ov dict copyOk download savePath info =
          .error (.rejected
            (info.filter (fun r => requirementType ltOf ov r.ltype == .ok .unknown)).length
            (info.filter (fun r => requirementType ltOf ov r.ltype == .ok .unknown)))) := by
  have h := complyGo_aggregates ltOf ov dict copyOk download savePath hcopy hdl hdict
    info [] [] hreq
  simpa [comply] using h

/-- Witness for C3: two rejected rows A and C survive a full pass (row B in
between still performs its dispatch) and are both named, with their count,
in the single aggregated error. -/
theorem comply_aggregates_rejects_witness :
    comply (fun s => if s = "MIT" then "notice" else "") [] (fun _ => some (ModuleMeta.mk "d"))
        (fun _ _ => true) (fun _ => some "text") "out"
        [LicenseRecord.mk "A" "BadLic" "uA", LicenseRecord.mk "B" "MIT" "uB",
         LicenseRecord.mk "C" "AlsoBad" "uC"] =
      .error (.rejected 2
        [LicenseRecord.mk "A" "BadLic" "uA", LicenseRecord.mk "C" "AlsoBad" "uC"]) := by
  have h := comply_aggregates_rejects (fun s => if s = "MIT" then "notice" else "") []
    (fun _ => some (ModuleMeta.mk "d")) (fun _ _ => true) (fun _ => some "text") "out"
    [LicenseRecord.mk "A" "BadLic" "uA", LicenseRecord.mk "B" "MIT" "uB",
     LicenseRecord.mk "C" "AlsoBad" "uC"]
    (fun _ _ => rfl) (fun u => ⟨"text", rfl⟩)
    (fun _ => ⟨ModuleMeta.mk "d", rfl, by decide⟩)
    (by intro r hr; fin_cases hr <;> exact ⟨_, rfl⟩)
  have h2 := h.2 (by decide)
  exact h2.trans (by decide)

mutual
/-- A filesystem entry as seen by filepath.Walk and the copy library: a
regular file (with a symlink flag, since Walk lstats and never follows
links, and its permission bits) or a directory with its children in walk
order. -/
inductive FsEntry where
  | file (name : String) (symlink : Bool) (perm : Nat)
  | dir (name : String) (perm : Nat) (children : FsList)
deriving DecidableEq, Repr

/-- A list of filesystem entries (mutual with FsEntry so that structural
recursion over trees is available). -/
inductive FsList where
  | nil
  | cons (head : FsEntry) (tail : FsList)
deriving DecidableEq, Repr
end

/-- The name of a filesystem entry. -/
def FsEntry.name : FsEntry → String
  | .file n _ _ => n
  | .dir n _ _ => n

/-- The pruned directory names of the license scanner
(src/v2/licenses/module.go, lines 103-109): .git, node_modules and
testdata. -/
def ignoredDir (name : String) : Bool :=
  name = ".git" || name = "node_modules" || name = "testdata"

/-- Modelled from the spec: the candidate filename pattern `licenseRegexp`
of the tree scanner is referenced by `module` (src/v2/licenses/module.go,
line 82) but its declaration is not among the provided sources. The spec
describes it as a case-sensitive match of exact license and notice file
names and their known extensions. -/
def isLicenseCandidate (name : String) : Bool :=
  name = "LICENSE" || name = "LICENSE.txt" || name = "LICENSE.md" ||
    name = "COPYING" || name = "NOTICE" || name = "NOTICE.txt" || name = "NOTICE.md"

/-- One license finding of the v1 scanner (the `License` of
src/v2/licenses/module.go, lines 26-30, as filled at lines 91-94: the
classifier identifier and the full walk path). -/
structure License where
  id : String
  path : String
deriving DecidableEq, Repr

mutual
/-- The walk callback of `module` (src/v2/licenses/module.go, lines 68-96)
applied to one entry whose full walk path is `p`: skip symbolic links, prune
ignored directories, skip filenames that do not look like a license file,
ask the classifier (`cl`, returning none on a classification failure, which
drops the candidate), and collect the findings in walk order. -/
def walkEntry (cl : String → Option String) (p : String) : FsEntry → List License
  | .file name symlink _ =>
    if symlink then []
    else if isLicenseCandidate name then
      match cl p with
      | some licenseID => [License.mk licenseID p]
      | none => []
    else []
  | .dir name _ children =>
    if ignoredDir name then [] else walkList cl p children

/-- Walk the children of a directory whose full path is `p`, in order. -/
def walkList (cl : String → Option String) (p : String) : FsList → List License
  | .nil => []
  | .cons c rest => walkEntry cl (p ++ "/" ++ c.name) c ++ walkList cl p rest
end

/-- A go module as listed by the dependency enumerator (the `gocli.Module`
fields used by the scanner): import path, on-disk directory, version. -/
structure GoModule where
  path : String
  dir : String
  version : String
deriving DecidableEq, Repr

/-- The deferred error wrapping of `module` (src/v2/licenses/module.go,
lines 58-62): every error is wrapped with the module path. -/
def scanWrap (modPath msg : String) : String :=
  "scanning licenses for module \"" ++ modPath ++ "\": " ++ msg

/-- `module` (src/v2/licenses/module.go, lines 57-101): scan a module for
licenses. An empty module directory is the EmptyRootError; `fsys` models the
filesystem: none when the root path does not exist, in which case
filepath.Walk reports an error and collects nothing. The zero-findings check
of lines 97-99 runs before the walk error of line 100 is returned, so a scan
that collects no finding fails with license not found even when the walk
itself failed; every error is wrapped with the module path. -/
def scanModule (cl : String → Option String) (fsys : String → Option FsEntry)
    (m : GoModule) : Except String (List License) :=
  if m.dir = "" then .error (scanWrap m.path "dir is empty")
  else
    let walked : List License × Option String :=
      match fsys m.dir with
      | none => ([], some ("lstat " ++ m.dir ++ ": no such file or directory"))
      | some root => (walkEntry cl m.dir root, none)
    if walked.1.isEmpty then .error (scanWrap m.path "license not found")
    else
      match walked.2 with
      | some e => .error (scanWrap m.path e)
      | none => .ok walked.1

/-- C5: for a component with a non-empty, existing root, a classification
failure on one candidate file is absorbed locally (the candidate is dropped
and the walk continues unchanged), and the scan returns the license-not-found
error exactly when zero candidates classify successfully: the error is
returned when the findings list is empty, and the findings are returned
otherwise. -/
theorem scan_error_iff_no_findings (cl : String → Option String)
    (fsys : String → Option FsEntry) (m : GoModule) (root : FsEntry)
    (hdir : m.dir ≠ "") (hroot : fsys m.dir = some root) :
    (walkEntry cl m.dir root = [] →
        scanModule cl fsys m = .error (scanWrap m.path "license not found")) ∧
    (walkEntry cl m.dir root ≠ [] →
        scanModule cl fsys m = .ok (walkEntry cl m.dir root)) ∧
    (∀ (p name : String) (perm : Nat) (rest : FsList),
        isLicenseCandidate name = true →
        cl (p ++ "/" ++ name) = none →
        walkList cl p (.cons (.file name false perm) rest) = walkList cl p rest) := by
  refine ⟨?_, ?_, ?_⟩
  · intro h
    simp only [scanModule, hroot, if_neg hdir]
    simp [h]
  · intro h
    simp only [scanModule, hroot, if_neg hdir]
    have : (walkEntry cl m.dir root).isEmpty = false := by
      cases hw : walkEntry cl m.dir root with
      | nil => exact absurd hw h
      | cons a l => simp
    simp [this]
  · intro p name perm rest hcand hcl
    simp [walkList, walkEntry, FsEntry.name, hcand, hcl]

/-- Witness for C5: a module whose only candidate file fails classification
has no findings, and its scan fails with the wrapped license-not-found
error; with a successful classifier the same scan returns the finding. -/
theorem scan_error_iff_no_findings_witness :
    scanModule (fun _ => none)
        (fun _ => some (.dir "m" 493 (.cons (.file "LICENSE" false 420) .nil)))
        (GoModule.mk "example.com/m" "/d/m" "v1.0.0") =
      .error (scanWrap "example.com/m" "license not found") := by
  have h := scan_error_iff_no_findings (fun _ => none)
    (fun _ => some (.dir "m" 493 (.cons (.file "LICENSE" false 420) .nil)))
    (GoModule.mk "example.com/m" "/d/m" "v1.0.0")
    (.dir "m" 493 (.cons (.file "LICENSE" false 420) .nil))
    (by decide) rfl
  exact h.1 (by decide)

/-- C9: scanning a component whose root directory is empty fails with the
EmptyRootError wrapped with the component path; every scan-phase error is
wrapped with the component path; and a root that is not an existing
directory also fails: the walk collects no finding there, and since the
zero-findings check precedes the walk-error return, the failure surfaces as
the wrapped license-not-found error. -/
theorem scan_errors_named (cl : String → Option String)
    (fsys : String → Option FsEntry) (m : GoModule) :
    (m.dir = "" → scanModule cl fsys m = .error (scanWrap m.path "dir is empty")) ∧
    (∀ e, scanModule cl fsys m = .error e → ∃ msg, e = scanWrap m.path msg) ∧
    (m.dir ≠ "" → fsys m.dir = none →
        scanModule cl fsys m = .error (scanWrap m.path "license not found")) := by
  refine ⟨?_, ?_, ?_⟩
  · intro h
    simp [scanModule, h]
  · intro e he
    by_cases hd : m.dir = ""
    · simp only [scanModule, if_pos hd] at he
      exact ⟨"dir is empty", (Except.error.inj he).symm⟩
    · cases hf : fsys m.dir with
      | none =>
        simp only [scanModule, if_neg hd, hf] at he
        exact ⟨"license not found", (Except.error.inj he).symm⟩
      | some root =>
        simp only [scanModule, if_neg hd, hf] at he
        by_cases hw : (walkEntry cl m.dir root).isEmpty
        · simp only [hw, if_true] at he
          exact ⟨"license not found", (Except.error.inj he).symm⟩
        · simp only [hw, if_false] at he
          exact absurd he (by simp)
  · intro hd hf
    simp [scanModule, hf, hd]

/-- Witness for C9: a module with no known on-disk location fails with the
empty-root error carrying its canonical name. -/
theorem scan_errors_named_witness :
    scanModule (fun _ => some "MIT") (fun _ => none)
        (GoModule.mk "example.com/m" "" "v1.0.0") =
      .error (scanWrap "example.com/m" "dir is empty") := by
  have h := scan_errors_named (fun _ => some "MIT") (fun _ => none)
    (GoModule.mk "example.com/m" "" "v1.0.0")
  exact h.1 rfl

/-- One license finding of the URL-enriched scanner (the `License` of
src/v2/licenses/module.go, lines 139-144): identifier, module-relative path,
optional URL and license family. -/
structure License2 where
  id : String
  relPath : String
  url : String
  ltype : LicenseType
deriving DecidableEq, Repr

/-- Join a module-relative path with a child name (the effect of
filepath.Rel(m.Dir, path) on the walk paths of children). -/
def joinRel (rel name : String) : String :=
  if rel = "" then name else rel ++ "/" ++ name

mutual
/-- The walk callback of the URL-enriched `module`
(src/v2/licenses/module.go, lines 193-227) on one entry: as `walkEntry`, but
the classifier also returns the license family, the stored path is relative
to the module root, and the finding carries `fileURL` applied to that
relative path (the `remote.FileURL` of the resolved source location). -/
def walk2Entry (cl : String → Option (String × LicenseType)) (fileURL : String → String)
    (p rel : String) : FsEntry → List License2
  | .file name symlink _ =>
    if symlink then []
    else if isLicenseCandidate name then
      match cl p with
      | some r => [License2.mk r.1 rel (fileURL rel) r.2]
      | none => []
    else []
  | .dir name _ children =>
    if ignoredDir name then [] else walk2List cl fileURL p rel children

/-- Walk the children of a directory at full path `p` and relative path
`rel`, in order. -/
def walk2List (cl : String → Option (String × LicenseType)) (fileURL : String → String)
    (p rel : String) : FsList → List License2
  | .nil => []
  | .cons c rest =>
    walk2Entry cl fileURL (p ++ "/" ++ c.name) (joinRel rel c.name) c ++
      walk2List cl fileURL p rel rest
end

/-- The URL-enriched `module` (src/v2/licenses/module.go, lines 171-232):
after the empty-root check, an empty version defaults to master with a
warning; then `source.ModuleInfo` resolves the remote source location, and a
resolution failure is returned as an error (wrapped, like every error of
this function, with the module path); on success the walk collects findings
enriched with per-file URLs. As in `scanModule`, the zero-findings check of
lines 228-230 precedes the walk-error return of line 231, so a missing root
(which collects nothing) surfaces as the license-not-found error. -/
def scanModuleWithURL (cl : String → Option (String × LicenseType))
    (moduleInfo : String → String → Except String (String → String))
    (fsys : String → Option FsEntry) (m : GoModule) : Except String (List License2) :=
  if m.dir = "" then .error (scanWrap m.path "dir is empty")
  else
    let ver := if m.version = "" then "master" else m.version
    match moduleInfo m.path ver with
    | .error e => .error (scanWrap m.path e)
    | .ok fileURL =>
      let walked : List License2 × Option String :=
        match fsys m.dir with
        | none => ([], some ("lstat " ++ m.dir ++ ": no such file or directory"))
        | some root => (walk2Entry cl fileURL m.dir "" root, none)
      if walked.1.isEmpty then .error (scanWrap m.path "license not found")
      else
        match walked.2 with
        | some e => .error (scanWrap m.path e)
        | none => .ok walked.1

/-- The library row of the v2 csv command (src/v2/csv.go, lines 57-91):
name, path of the winning license file (empty when none), and its
module-relative path as computed by filepath.Rel. -/
structure Library where
  name : String
  licensePath : String
  relPath : String
deriving DecidableEq, Repr

/-- The per-library field computation of `csvMain` (src/v2/csv.go,
lines 72-88): the license name and URL both default to the literal Unknown;
when a license path is known, the classifier identifies the name (falling
back to Unknown on failure) and the resolved remote (none when
source.ModuleInfo failed, in which case the nil-receiver FileURL returns the
empty string) provides the URL, falling back to Unknown when empty. -/
def csvFields (identify : String → Option String) (remote : Option (String → String))
    (lib : Library) : String × String × String :=
  let pair :=
    if lib.licensePath = "" then ("Unknown", "Unknown")
    else
      let licenseName :=
        match identify lib.licensePath with
        | some n => n
        | none => "Unknown"
      let u :=
        match remote with
        | none => ""
        | some fileURL => fileURL lib.relPath
      (licenseName, if u = "" then "Unknown" else u)
  (lib.name, pair.2, pair.1)

/-- The row Sprintf of `csvMain` (src/v2/csv.go, line 89). -/
def csvRowV2 (identify : String → Option String) (remote : Option (String → String))
    (lib : Library) : String :=
  (csvFields identify remote lib).1 ++ ", " ++ (csvFields identify remote lib).2.1 ++ ", " ++
    (csvFields identify remote lib).2.2 ++ "\n"

/-- The row Sprintf of the v1 `csvMain` (src/unnamed/part_000, line 55):
the module path, license URL and license ID are printed as-is. -/
def csvRowV1 (modPath url id : String) : String :=
  modPath ++ ", " ++ url ++ ", " ++ id ++ "\n"

/-- Join fields with the literal comma-space separator. -/
def joinFields : List String → String
  | [] => ""
  | [x] => x
  | x :: xs => x ++ ", " ++ joinFields xs

/-- The raw, pre-fallback license URL of a csv row (src/v2/csv.go,
lines 84-87): empty when no license path is known, when the remote could not
be resolved, or when the per-file URL lookup misses. -/
def rawURL (remote : Option (String → String)) (lib : Library) : String :=
  if lib.licensePath = "" then ""
  else
    match remote with
    | none => ""
    | some fileURL => fileURL lib.relPath

lemma strAppend_assoc (a b c : String) : a ++ b ++ c = a ++ (b ++ c) := by
  apply congrArg String.mk
  show (a.data ++ b.data) ++ c.data = a.data ++ (b.data ++ c.data)
  exact List.append_assoc a.data b.data c.data

/-- C6 counterexample: the v1 csv writer (src/unnamed/part_000, line 55)
serializes an empty license URL as an empty middle field, not as the
literal Unknown, refuting the claim for that writer. -/
theorem csv_v1_empty_url :
    csvRowV1 "example.com/m" "" "MIT" = "example.com/m, , MIT\n" ∧
      "example.com/m, , MIT\n" ≠ "example.com/m, Unknown, MIT\n" := by
  constructor
  · rfl
  · decide

/-- C6 amended: the v2 csv writer emits exactly three fields joined by the
literal comma-space separator, in the order component name, license URL,
license identifier; the URL field is never empty, and it is the literal
Unknown exactly when the raw URL is empty or unresolvable. The v1 writer
keeps the same three-field order but passes an empty URL through (see the
counterexample). -/
theorem csv_v2_three_fields (identify : String → Option String)
    (remote : Option (String → String)) (lib : Library) :
    csvRowV2 identify remote lib =
      joinFields [(csvFields identify remote lib).1, (csvFields identify remote lib).2.1,
        (csvFields identify remote lib).2.2] ++ "\n" ∧
    (csvFields identify remote lib).2.1 ≠ "" ∧
    (csvFields identify remote lib).2.1 =
      (if rawURL remote lib = "" then "Unknown" else rawURL remote lib) := by
  refine ⟨?_, ?_, ?_⟩
  · show (csvFields identify remote lib).1 ++ ", " ++ (csvFields identify remote lib).2.1 ++
      ", " ++ (csvFields identify remote lib).2.2 ++ "\n" = _
    simp only [joinFields, strAppend_assoc]
  · by_cases hp : lib.licensePath = ""
    · simp [csvFields, hp]
    · simp only [csvFields, if_neg hp]
      by_cases hu : (match remote with
        | none => ""
        | some fileURL => fileURL lib.relPath) = ""
      · simp [hu]
      · simp [hu]
  · by_cases hp : lib.licensePath = ""
    · simp [csvFields, rawURL, hp]
    · simp [csvFields, rawURL, if_neg hp]

/-- C7 counterexample: in the URL-enriched scanner
(src/v2/licenses/module.go, lines 188-191), a source-location resolution
failure is returned as a component-fatal error even though the module has a
perfectly classifiable license file, refuting the claim that resolution
failure is non-fatal for every component. -/
theorem module_info_failure_fatal :
    scanModuleWithURL (fun _ => some ("MIT", LicenseType.permissive))
        (fun _ _ => .error "remote lookup failed")
        (fun _ => some (.dir "m" 493 (.cons (.file "LICENSE" false 420) .nil)))
        (GoModule.mk "example.com/m" "/d/m" "v1.0.0") =
      .error (scanWrap "example.com/m" "remote lookup failed") := by
  decide

/-- C7 amended: in the v2 csv command (src/v2/csv.go, lines 66-88), a
source-location resolution failure is non-fatal: the row is still produced,
its URL field falls back to the literal Unknown, and the emitted license
identifier is the same as with any successfully resolved remote; in the
URL-enriched scanner of licenses/module.go, however, a resolution failure
aborts the scan of that component with an error wrapped with the module
path (see the counterexample). -/
theorem url_resolution_split (identify : String → Option String)
    (remote : Option (String → String)) (lib : Library)
    (cl : String → Option (String × LicenseType)) (fsys : String → Option FsEntry)
    (m : GoModule) (msg : String) (hdir : m.dir ≠ "") :
    (csvFields identify none lib).2.1 = "Unknown" ∧
    (csvFields identify remote lib).2.2 = (csvFields identify none lib).2.2 ∧
    scanModuleWithURL cl (fun _ _ => .error msg) fsys m =
      .error (scanWrap m.path msg) := by
  refine ⟨?_, ?_, ?_⟩
  · by_cases hp : lib.licensePath = ""
    · simp [csvFields, hp]
    · simp [csvFields, if_neg hp]
  · by_cases hp : lib.licensePath = ""
    · simp [csvFields, hp]
    · simp [csvFields, if_neg hp]
  · simp [scanModuleWithURL, hdir]

/-- Witness for C7: the fatal branch of the URL-enriched scanner at a
concrete module with a non-empty root, and the Unknown URL fallback of the
csv command for a concrete library. -/
theorem url_resolution_split_witness :
    (csvFields (fun _ => some "MIT") none (Library.mk "m" "/d/m/LICENSE" "LICENSE")).2.1 =
        "Unknown" ∧
      scanModuleWithURL (fun _ => none) (fun _ _ => .error "timeout") (fun _ => none)
          (GoModule.mk "example.com/m" "/d/m" "") =
        .error (scanWrap "example.com/m" "timeout") := by
  have h := url_resolution_split (fun _ => some "MIT") none
    (Library.mk "m" "/d/m/LICENSE" "LICENSE") (fun _ => none) (fun _ => none)
    (GoModule.mk "example.com/m" "/d/m" "") "timeout" (by decide)
  exact ⟨h.1, h.2.2⟩

/-- Go strings.HasSuffix. -/
def hasSuffix (s post : String) : Bool :=
  post.toList.isSuffixOf s.toList

/-- The Skip option of the source copy (src/v2/cmd/save.go, line 253, and
src/unnamed/part_001, line 145): an entry is skipped when its path ends with
.git. -/
def skipGit (src : String) : Bool :=
  hasSuffix src ".git"

/-- The permission bits added on copy (src/v2/cmd/save.go, lines 250 and
102, and src/unnamed/part_001, line 142): user read and write. -/
def addPerm : Nat := 0o600

mutual
/-- The recursive copy of `copySrc` (src/v2/cmd/save.go, lines 246-259) on
one entry at path `p`, modelling the copy library: the Skip option is
consulted for every visited entry and a skipped directory is not descended
into; every copied entry has the AddPermission bits (user read/write) added
to its permissions. The result lists the copied entries with their new
permission bits. -/
def copyEntry (p : String) : FsEntry → List (String × Nat)
  | .file _ _ perm => if skipGit p then [] else [(p, perm ||| addPerm)]
  | .dir _ perm children =>
    if skipGit p then [] else (p, perm ||| addPerm) :: copyList p children

/-- Copy the children of a directory at path `p`, in order. -/
def copyList (p : String) : FsList → List (String × Nat)
  | .nil => []
  | .cons c rest => copyEntry (p ++ "/" ++ c.name) c ++ copyList p rest
end

mutual
/-- The full listing of a source tree rooted at path `p`: every entry with
its path, its original permissions, and a flag that is true exactly when
neither its own path nor the path of any enclosing directory from the copy
root down is skipped (`ok` carries the flag of the parent chain). -/
def entriesFrom (ok : Bool) (p : String) : FsEntry → List (String × Nat × Bool)
  | .file _ _ perm => [(p, perm, ok && !skipGit p)]
  | .dir _ perm children =>
    (p, perm, ok && !skipGit p) :: entriesList (ok && !skipGit p) p children

/-- List the children of a directory at path `p` with chain flag `ok`. -/
def entriesList (ok : Bool) (p : String) : FsList → List (String × Nat × Bool)
  | .nil => []
  | .cons c rest => entriesFrom ok (p ++ "/" ++ c.name) c ++ entriesList ok p rest
end

/-- Keep an entry of the annotated listing when its whole chain is
unskipped, adding the copy permission bits. -/
def copyKeep (x : String × Nat × Bool) : Option (String × Nat) :=
  if x.2.2 then some (x.1, x.2.1 ||| addPerm) else none

mutual
theorem copyEntry_eq (p : String) (e : FsEntry) :
    copyEntry p e = (entriesFrom true p e).filterMap copyKeep := by
  cases e with
  | file n s pm =>
    by_cases h : skipGit p <;>
      simp [copyEntry, entriesFrom, copyKeep, List.filterMap_cons, h]
  | dir n pm cs =>
    by_cases h : skipGit p
    · have h2 := entriesList_false p cs
      simp [copyEntry, entriesFrom, copyKeep, List.filterMap_cons, h, h2]
    · have h2 := copyList_eq p cs
      simp [copyEntry, entriesFrom, copyKeep, List.filterMap_cons, h, h2]

theorem copyList_eq (p : String) (cs : FsList) :
    copyList p cs = (entriesList true p cs).filterMap copyKeep := by
  cases cs with
  | nil => simp [copyList, entriesList]
  | cons c rest =>
    have h1 := copyEntry_eq (p ++ "/" ++ c.name) c
    have h2 := copyList_eq p rest
    simp [copyList, entriesList, List.filterMap_append, h1, h2]

theorem entriesFrom_false (p : String) (e : FsEntry) :
    (entriesFrom false p e).filterMap copyKeep = [] := by
  cases e with
  | file n s pm => simp [entriesFrom, copyKeep, List.filterMap_cons]
  | dir n pm cs =>
    have h2 := entriesList_false p cs
    simp [entriesFrom, copyKeep, List.filterMap_cons, h2]

theorem entriesList_false (p : String) (cs : FsList) :
    (entriesList false p cs).filterMap copyKeep = [] := by
  cases cs with
  | nil => simp [entriesList]
  | cons c rest =>
    have h1 := entriesFrom_false (p ++ "/" ++ c.name) c
    have h2 := entriesList_false p rest
    simp [entriesList, List.filterMap_append, h1, h2]
end

/-- C10 counterexample: a directory whose name merely ends in .git prunes
its entire subtree: the file at path r/sub.git/f, whose own path does not
end with .git, is nevertheless absent from the copy output (which retains
only the root), refuting the claim that every entry whose path does not end
with .git is copied. -/
theorem copy_prune_counterexample :
    copyEntry "r"
        (.dir "r" 365 (.cons (.dir "sub.git" 365 (.cons (.file "f" false 288) .nil)) .nil)) =
      [("r", 493)] ∧
    skipGit "r/sub.git/f" = false ∧ skipGit "r/sub.git" = true := by
  refine ⟨?_, by decide, by decide⟩
  decide

/-- C10 amended: during a full source-tree copy, the per-entry skip test is
exactly whether the visited path ends with .git (so a plain file named
repo.git is skipped too), and skipping a directory prunes its whole
subtree: an entry is copied exactly when neither its own path nor the path
of any enclosing directory from the copy root down ends with .git, and
every copied entry has the user read/write permission bits added. -/
theorem copy_skip_chain :
    (∀ (p : String) (e : FsEntry),
        copyEntry p e = (entriesFrom true p e).filterMap copyKeep) ∧
    skipGit "repo.git" = true := by
  exact ⟨copyEntry_eq, by decide⟩

end GoLicenses
